import Mathlib

/-!
Verification development for the maintenance-log question-answering
assistant (Python repository: `src/data.py`, `src/analytics.py`,
`src/app.py`, `src/webapp.py`).

The Python code is shallowly embedded: pandas DataFrames of incidents
become `List Incident`, pandas Timestamps become an abstract totally
ordered time point (`Timestamp`, a `Nat` key monotone in
(year, month, day, time-of-day)), and Python functions that can raise
become `Except String` valued functions.  Each definition mirrors one
Python function and is named after it where Lean allows.
-/

namespace MaintQA

/-- Model of a `pandas.Timestamp`: an abstract point on a totally
ordered time line.  `ofYMD` embeds calendar dates monotonically
(lexicographic in year, month, day), matching the ordering of real
timestamps for valid dates. -/
structure Timestamp where
  key : Nat
deriving DecidableEq, Repr

/-- `pd.Timestamp(year=y, month=m, day=d)` (midnight).  The encoding is
strictly monotone in the lexicographic order of (y, m, d, h, min, s)
for in-range field values. -/
def Timestamp.ofYMDHMS (y m d h mi s : Nat) : Timestamp :=
  ⟨((((y * 13 + m) * 32 + d) * 24 + h) * 60 + mi) * 60 + s⟩

def Timestamp.ofYMD (y m d : Nat) : Timestamp :=
  Timestamp.ofYMDHMS y m d 0 0 0

/-- Python `str.lower()`, character by character (kernel-computable
counterpart of `String.toLower`). -/
def strLower (s : String) : String := String.mk (s.data.map Char.toLower)

/-- Python `str.strip()`: drop leading and trailing whitespace
(kernel-computable counterpart of `String.trim`). -/
def strTrim (s : String) : String :=
  String.mk (((s.data.dropWhile Char.isWhitespace).reverse.dropWhile
    Char.isWhitespace).reverse)

/-- Python string comparison (lexicographic by code point), stated so
that its `Decidable` instance reduces in the kernel (Mathlib's
`String.decidableLE` is built by tactic and does not). -/
def strLe (a b : String) : Prop := ¬ b.data < a.data

instance : DecidableRel strLe := fun a b =>
  inferInstanceAs (Decidable (¬ b.data < a.data))

/-- Python `str.startswith`. -/
def startsWithStr (s pre : String) : Bool := pre.data.isPrefixOf s.data

/-- Python `sep.join(parts)`. -/
def joinSep (sep : String) : List String → String
  | [] => ""
  | [x] => x
  | x :: y :: xs => x ++ sep ++ joinSep sep (y :: xs)

/-- Decidable equality of `Except` results, so that concrete runs of the
fallible functions can be checked by evaluation. -/
instance {ε α : Type} [DecidableEq ε] [DecidableEq α] :
    DecidableEq (Except ε α) := fun a b =>
  match a, b with
  | .error e, .error f =>
    if h : e = f then .isTrue (h ▸ rfl) else .isFalse (fun hc => h (by cases hc; rfl))
  | .ok x, .ok y =>
    if h : x = y then .isTrue (h ▸ rfl) else .isFalse (fun hc => h (by cases hc; rfl))
  | .error _, .ok _ => .isFalse (fun hc => by cases hc)
  | .ok _, .error _ => .isFalse (fun hc => by cases hc)

/-- One row of the collapsed work-order (incident) table built by
`build_work_orders` (`src/data.py`).  The `technicians` field models the
`technicians` list column; whether that column is present at all is
tracked separately by `WOTable.hasTechnicians`. -/
structure Incident where
  work_order_id : Int
  equipment_id : String
  product_line : String
  symptom_code : String
  description : String
  technicians : List String
  comments : String
  n_updates : Nat
  start_ts : Timestamp
  end_ts : Timestamp
deriving DecidableEq, Repr

/-- An incident table together with a flag recording whether the
`technicians` list column exists (pandas row filtering never changes the
column set, so one flag per table is faithful). -/
structure WOTable where
  hasTechnicians : Bool
  rows : List Incident
deriving DecidableEq, Repr

/-- `Filters` dataclass from `src/analytics.py`: optional conjunctive
constraints on incidents. -/
structure Filters where
  equipment_id : Option String := none
  product_line : Option String := none
  symptom_code : Option String := none
  start_ts_min : Option Timestamp := none
  start_ts_max : Option Timestamp := none
deriving DecidableEq, Repr

/-- One guard of `filter_work_orders`: `if f.<field>: df = df[df[<field>] == f.<field>]`.
Python truthiness: both `None` and the empty string skip the guard. -/
def applyStrFilter (get : Incident → String) (o : Option String)
    (df : List Incident) : List Incident :=
  match o with
  | none => df
  | some s => if s = "" then df else df.filter (fun i => get i == s)

/-- `if f.start_ts_min is not None: df = df[df["start_ts"] >= f.start_ts_min]`. -/
def applyMinFilter (o : Option Timestamp) (df : List Incident) : List Incident :=
  match o with
  | none => df
  | some t => df.filter (fun i => decide (t.key ≤ i.start_ts.key))

/-- `if f.start_ts_max is not None: df = df[df["start_ts"] < f.start_ts_max]` (end-exclusive). -/
def applyMaxFilter (o : Option Timestamp) (df : List Incident) : List Incident :=
  match o with
  | none => df
  | some t => df.filter (fun i => decide (i.start_ts.key < t.key))

/-- `filter_work_orders` (`src/analytics.py`): the five guards applied in
source order (equipment, product line, symptom, start-min, start-max). -/
def filter_work_orders (work_orders : List Incident) (f : Filters) : List Incident :=
  applyMaxFilter f.start_ts_max
    (applyMinFilter f.start_ts_min
      (applyStrFilter (fun i => i.symptom_code) f.symptom_code
        (applyStrFilter (fun i => i.product_line) f.product_line
          (applyStrFilter (fun i => i.equipment_id) f.equipment_id work_orders))))

/-- `sub in hay` for Python strings: contiguous substring test. -/
def containsSub (hay sub : String) : Bool :=
  decide (sub.toList <:+: hay.toList)

/-- `intent` (`src/app.py`): ordered cascade of substring tests on the
lower-cased question, first match wins. -/
def intent (q : String) : String :=
  let ql := strLower q
  if containsSub ql "mention" || containsSub ql "mentions" ||
     containsSub ql "contain" || containsSub ql "contains" ||
     containsSub ql "containing" then "count_mentions"
  else if containsSub ql "which one had more" then "compare_equipment"
  else if containsSub ql "which technician handled the most" then "top_technician"
  else if containsSub ql "how many different technicians" then "count_distinct_technicians"
  else if containsSub ql "distinct equipment" || containsSub ql "different equipment" then
    "count_distinct_equipment"
  else if containsSub ql "most common symptom" then "most_common_symptom"
  else if containsSub ql "which equipment has the most incidents" then "top_equipment"
  else if containsSub ql "how many" || containsSub ql "number of" then "count_incidents"
  else if startsWithStr (strTrim ql) "what about" then "what_about"
  else "unknown"

/-- Modelled from the spec: the intent classifier exactly as the claim
words it — an ordered list of (predicate, tag) rules over the
lower-cased text, earlier rule wins; rule 9 is the claim's literal
"text starting with what about" (no stripping). -/
def intentRules : List ((String → Bool) × String) :=
  [ (fun ql => containsSub ql "mention" || containsSub ql "mentions" ||
       containsSub ql "contain" || containsSub ql "contains" ||
       containsSub ql "containing", "count_mentions"),
    (fun ql => containsSub ql "which one had more", "compare_equipment"),
    (fun ql => containsSub ql "which technician handled the most", "top_technician"),
    (fun ql => containsSub ql "how many different technicians", "count_distinct_technicians"),
    (fun ql => containsSub ql "distinct equipment" || containsSub ql "different equipment",
       "count_distinct_equipment"),
    (fun ql => containsSub ql "most common symptom", "most_common_symptom"),
    (fun ql => containsSub ql "which equipment has the most incidents", "top_equipment"),
    (fun ql => containsSub ql "how many" || containsSub ql "number of", "count_incidents"),
    (fun ql => startsWithStr ql "what about", "what_about") ]

/-- First matching rule wins; no rule matches gives the unknown tag. -/
def firstMatch : List ((String → Bool) × String) → String → String
  | [], _ => "unknown"
  | (p, tag) :: rest, ql => if p ql then tag else firstMatch rest ql

/-- The intent classifier cascade exactly as the claim states it. -/
def intentSpec (q : String) : String := firstMatch intentRules (strLower q)

/-- The rule cascade amended to match the code: identical except that
rule 9 strips the text before the starts-with test
(`ql.strip().startswith("what about")`). -/
def intentRulesAmended : List ((String → Bool) × String) :=
  [ (fun ql => containsSub ql "mention" || containsSub ql "mentions" ||
       containsSub ql "contain" || containsSub ql "contains" ||
       containsSub ql "containing", "count_mentions"),
    (fun ql => containsSub ql "which one had more", "compare_equipment"),
    (fun ql => containsSub ql "which technician handled the most", "top_technician"),
    (fun ql => containsSub ql "how many different technicians", "count_distinct_technicians"),
    (fun ql => containsSub ql "distinct equipment" || containsSub ql "different equipment",
       "count_distinct_equipment"),
    (fun ql => containsSub ql "most common symptom", "most_common_symptom"),
    (fun ql => containsSub ql "which equipment has the most incidents", "top_equipment"),
    (fun ql => containsSub ql "how many" || containsSub ql "number of", "count_incidents"),
    (fun ql => startsWithStr (strTrim ql) "what about", "what_about") ]

/-- The amended classifier cascade. -/
def intentSpecAmended (q : String) : String := firstMatch intentRulesAmended (strLower q)

/-- Tie-break order used by `sort_values([count, name], ascending=[False, True])`:
count descending, then name ascending.  On distinct names (always the
case after a groupby) this is a total order with a unique sorted
arrangement, so it models the pandas sort regardless of sort algorithm. -/
def rankRel (a b : String × Nat) : Prop :=
  b.2 < a.2 ∨ (a.2 = b.2 ∧ strLe a.1 b.1)

instance : DecidableRel rankRel := fun a b =>
  inferInstanceAs (Decidable (b.2 < a.2 ∨ (a.2 = b.2 ∧ strLe a.1 b.1)))

instance : IsTotal String strLe := by
  constructor
  intro a b
  have h : ∀ x y : String, strLe x y ↔ x ≤ y := by
    intro x y; unfold strLe; rw [← not_lt, String.lt_iff_toList_lt]; exact Iff.rfl
  rw [h, h]
  exact le_total a b

instance : IsTrans String strLe := by
  constructor
  intro a b c hab hbc
  have h : ∀ x y : String, strLe x y ↔ x ≤ y := by
    intro x y; unfold strLe; rw [← not_lt, String.lt_iff_toList_lt]; exact Iff.rfl
  rw [h] at hab hbc ⊢
  exact hab.trans hbc

instance : IsAntisymm String strLe := by
  constructor
  intro a b hab hba
  have h : ∀ x y : String, strLe x y ↔ x ≤ y := by
    intro x y; unfold strLe; rw [← not_lt, String.lt_iff_toList_lt]; exact Iff.rfl
  rw [h] at hab hba
  exact le_antisymm hab hba

instance : IsTotal (String × Nat) rankRel := by
  constructor
  intro a b
  rcases lt_trichotomy a.2 b.2 with h | h | h
  · exact Or.inr (Or.inl h)
  · rcases IsTotal.total (r := strLe) a.1 b.1 with h1 | h1
    · exact Or.inl (Or.inr ⟨h, h1⟩)
    · exact Or.inr (Or.inr ⟨h.symm, h1⟩)
  · exact Or.inl (Or.inl h)

instance : IsTrans (String × Nat) rankRel := by
  constructor
  intro a b c hab hbc
  rcases hab with h1 | ⟨h1, h1'⟩ <;> rcases hbc with h2 | ⟨h2, h2'⟩
  · exact Or.inl (h2.trans h1)
  · exact Or.inl (h2 ▸ h1)
  · exact Or.inl (h1 ▸ h2)
  · exact Or.inr ⟨h1.trans h2, IsTrans.trans _ _ _ h1' h2'⟩

instance : IsAntisymm (String × Nat) rankRel := by
  constructor
  intro a b hab hba
  rcases hab with h1 | ⟨h1, h1'⟩ <;> rcases hba with h2 | ⟨h2, h2'⟩
  · exact absurd h2 (lt_asymm h1)
  · exact absurd h1 (h2 ▸ lt_irrefl _)
  · exact absurd h2 (h1 ▸ lt_irrefl _)
  · exact Prod.ext (IsAntisymm.antisymm _ _ h1' h2') h1

/-- `count_incidents` (`src/analytics.py`): row count of the filtered set. -/
def count_incidents (work_orders : List Incident) (f : Filters) : Nat :=
  (filter_work_orders work_orders f).length

/-- `count_distinct_equipment` (`src/analytics.py`): `nunique` of
`equipment_id` over the filtered set (0 when the filtered set is empty). -/
def count_distinct_equipment (work_orders : List Incident) (f : Filters) : Nat :=
  let df := filter_work_orders work_orders f
  if df.isEmpty then 0
  else ((df.map (fun i => i.equipment_id)).dedup).length

/-- `top_equipment` (`src/analytics.py`): group the filtered set by
`equipment_id` (pandas groupby enumerates keys in ascending order),
count rows per key, sort by (count descending, id ascending), take the
first `n`.  Empty filtered set gives the empty table. -/
def top_equipment (work_orders : List Incident) (n : Nat) (f : Filters) :
    List (String × Nat) :=
  let df := filter_work_orders work_orders f
  if df.isEmpty then []
  else
    let keys := List.insertionSort strLe ((df.map (fun i => i.equipment_id)).dedup)
    let counts := keys.map (fun k => (k, (df.filter (fun i => i.equipment_id == k)).length))
    (List.insertionSort rankRel counts).take n

/-- The haystack searched by `count_mentions`:
`description + "\n" + comments`. -/
def hayOf (i : Incident) : String := i.description ++ "\n" ++ i.comments

/-- `count_mentions` (`src/analytics.py`): strip and lower-case the
keyword (empty result short-circuits to 0), then count filtered rows
whose lower-cased `description + "\n" + comments` contains it as a
literal substring (`re.escape` makes the regex literal). -/
def count_mentions (work_orders : List Incident) (keyword : String) (f : Filters) : Nat :=
  let kw := strLower (strTrim keyword)
  if kw = "" then 0
  else
    let df := filter_work_orders work_orders f
    if df.isEmpty then 0
    else (df.filter (fun i => containsSub (strLower (hayOf i)) kw)).length

/-- The `explode("technicians")` step of `top_technicians`: one
(work_order_id, technician) pair per list entry.  (pandas turns an empty
list into a single NaN row which the subsequent `dropna` removes, so
producing nothing for an empty list is equivalent.) -/
def explodeTechs (df : List Incident) : List (Int × String) :=
  df.flatMap (fun i => i.technicians.map (fun t => (i.work_order_id, t)))

/-- Exploded pairs after `astype(str).str.strip()` and dropping empty
names. -/
def cleanedPairs (df : List Incident) : List (Int × String) :=
  ((explodeTechs df).map (fun p => (p.1, strTrim p.2))).filter (fun p => p.2 != "")

/-- Distinct technician names of the cleaned exploded rows (groupby keys). -/
def techNames (df : List Incident) : List String :=
  ((cleanedPairs df).map (fun p => p.2)).dedup

/-- `groupby("technicians")["work_order_id"].nunique()` for one key. -/
def distinctWOCount (df : List Incident) (tech : String) : Nat :=
  ((((cleanedPairs df).filter (fun p => p.2 == tech)).map (fun p => p.1)).dedup).length

/-- The full ranking computed by `top_technicians` before `head(n)`:
group keys in ascending order, distinct work-order count per key, sorted
by (count descending, name ascending). -/
def techRanking (df : List Incident) : List (String × Nat) :=
  let names := List.insertionSort strLe (techNames df)
  let counts := names.map (fun t => (t, distinctWOCount df t))
  List.insertionSort rankRel counts

/-- Error text raised for a missing technicians column (apostrophes of
the Python message omitted). -/
def techColMsg : String := "work_orders missing expected technicians list column."

/-- `top_technicians` (`src/analytics.py`): filter, return the empty
table on an empty filtered set, raise a ValueError when the
`technicians` column is missing, otherwise explode / clean / count
distinct work orders / sort / `head(n)`. -/
def top_technicians (t : WOTable) (n : Nat) (f : Filters) :
    Except String (List (String × Nat)) :=
  let df := filter_work_orders t.rows f
  if df.isEmpty then .ok []
  else if !t.hasTechnicians then .error techColMsg
  else .ok ((techRanking df).take n)

/-- `count_distinct_technicians` (`src/analytics.py`): filter, return 0
on an empty filtered set, raise when the `technicians` column is
missing, otherwise `nunique` of the cleaned exploded names. -/
def count_distinct_technicians (t : WOTable) (f : Filters) : Except String Nat :=
  let df := filter_work_orders t.rows f
  if df.isEmpty then .ok 0
  else if !t.hasTechnicians then .error techColMsg
  else .ok ((((df.flatMap (fun i => i.technicians)).map strTrim).filter
      (fun s => s != "")).dedup).length

/-- Row count of rows carrying symptom code `c`
(one entry of `value_counts()`). -/
def countSymptom (df : List Incident) (c : String) : Nat :=
  (df.filter (fun i => i.symptom_code == c)).length

/-- The distinct symptom codes of the filtered set (the index of
`value_counts()`). -/
def symptomCodesDedup (df : List Incident) : List String :=
  (df.map (fun i => i.symptom_code)).dedup

/-- `int(vc.iloc[0])`: `value_counts()` sorts by count descending, so
its first entry is the maximum frequency. -/
def maxCount (df : List Incident) : Nat :=
  ((symptomCodesDedup df).map (countSymptom df)).foldr max 0

/-- `most_common_symptoms` (`src/analytics.py`): all symptom codes tied
at the maximum frequency of the filtered set, each paired with that
count, sorted alphabetically; empty input (or an empty `value_counts`)
gives the empty list. -/
def most_common_symptoms (work_orders : List Incident) (f : Filters) :
    List (String × Nat) :=
  let df := filter_work_orders work_orders f
  if df.isEmpty then []
  else if (symptomCodesDedup df).isEmpty then []
  else
    let m := maxCount df
    let tied := (symptomCodesDedup df).filter (fun c => countSymptom df c == m)
    (List.insertionSort strLe tied).map (fun c => (c, m))

/-! ### Parsing helpers of `src/app.py`

The regular expressions of `app.py` are modelled by explicit scanners
over the character list.  All patterns involved start and end in word
characters, so a word boundary amounts to: the previous character (if
any) is not a word character, resp. the next character (if any) is not
a word character. -/

/-- Python `\w` for the ASCII questions at hand. -/
def isWordChar (c : Char) : Bool := c.isAlphanum || c == '_'

/-- Word boundary before position `i` of `cs`. -/
def boundaryBefore (cs : List Char) (i : Nat) : Bool :=
  i == 0 || !isWordChar (cs.getD (i - 1) ' ')

/-- Word boundary between a match and the remaining characters. -/
def boundaryAfter (rest : List Char) : Bool :=
  match rest with
  | [] => true
  | c :: _ => !isWordChar c

/-- Match a literal, returning the remaining characters. -/
def matchLit (cs : List Char) (lit : List Char) : Option (List Char) :=
  match lit, cs with
  | [], rest => some rest
  | l :: ls, c :: cs' => if c = l then matchLit cs' ls else none
  | _ :: _, [] => none

/-- A segment of an alternation branch: a literal or `\s+` (one or more
whitespace characters; greedy is exact here because every following
literal starts with a non-whitespace character). -/
inductive Seg where
  | lit (s : String)
  | ws
deriving Repr

/-- Match a sequence of segments at the head of `cs`. -/
def matchSegs : List Char → List Seg → Option (List Char)
  | cs, [] => some cs
  | cs, Seg.lit s :: rest =>
    match matchLit cs s.toList with
    | some cs' => matchSegs cs' rest
    | none => none
  | cs, Seg.ws :: rest =>
    match cs with
    | c :: cs' =>
      if c.isWhitespace then matchSegs (cs'.dropWhile Char.isWhitespace) rest
      else none
    | [] => none

/-- Does some branch of the alternation match at position `i` with word
boundaries on both sides?  Branches are tried in the regex's order. -/
def altAt (alts : List (List Seg)) (cs : List Char) (i : Nat) : Bool :=
  boundaryBefore cs i &&
    alts.any (fun segs =>
      match matchSegs (cs.drop i) segs with
      | some rest => boundaryAfter rest
      | none => false)

/-- `re.search` for a boundary-delimited alternation: scan positions
left to right. -/
def altSearch (alts : List (List Seg)) (cs : List Char) : Bool :=
  (List.range cs.length).any (fun i => altAt alts cs i)

/-- Branches of `\b(first\s+half|1st\s+half|h1)\b`. -/
def h1Alts : List (List Seg) :=
  [[Seg.lit "first", Seg.ws, Seg.lit "half"],
   [Seg.lit "1st", Seg.ws, Seg.lit "half"],
   [Seg.lit "h1"]]

/-- Branches of `\b(second\s+half|2nd\s+half|h2)\b`. -/
def h2Alts : List (List Seg) :=
  [[Seg.lit "second", Seg.ws, Seg.lit "half"],
   [Seg.lit "2nd", Seg.ws, Seg.lit "half"],
   [Seg.lit "h2"]]

/-- A 4-digit year token `\b(20\d{2})\b` starting at position `i`. -/
def yearAt (cs : List Char) (i : Nat) : Option Nat :=
  match cs.drop i with
  | c0 :: c1 :: c2 :: c3 :: rest =>
    if c0 = '2' && c1 = '0' && c2.isDigit && c3.isDigit &&
       boundaryBefore cs i && boundaryAfter rest then
      some (2000 + 10 * (c2.toNat - 48) + (c3.toNat - 48))
    else none
  | _ => none

/-- `re.search(r"\b(20\d{2})\b", ql)`: the first year token. -/
def findYear (cs : List Char) : Option Nat :=
  (List.range cs.length).findSome? (yearAt cs)

/-- `_year_from_query` (`src/app.py`): the first 4-digit `20\d\d` token,
else the caller-supplied default year. -/
def yearFromQuery (ql : String) (default_year : Nat) : Nat :=
  (findYear ql.toList).getD default_year

/-- The branch literals of the month regex of `_month_range_from_query`,
in the exact order a backtracking engine tries them at one position
(per month: greedy long form first; for `sep(?:t)?(?:ember)?` the four
expansions in greedy order, including the misspelling "sepember" that
the regex does accept). -/
def monthVariants : List String :=
  ["january", "jan", "february", "feb", "march", "mar", "april", "apr",
   "may", "june", "jun", "july", "jul", "august", "aug",
   "september", "sept", "sepember", "sep",
   "october", "oct", "november", "nov", "december", "dec"]

/-- The token (regex group 1) matched at position `i`, if any. -/
def monthAt (cs : List Char) (i : Nat) : Option String :=
  if boundaryBefore cs i then
    monthVariants.findSome? (fun v =>
      match matchLit (cs.drop i) v.toList with
      | some rest => if boundaryAfter rest then some v else none
      | none => none)
  else none

/-- `re.search` over the month alternation: leftmost position wins,
returning the matched token `m.group(1)`. -/
def monthSearch (cs : List Char) : Option String :=
  (List.range cs.length).findSome? (monthAt cs)

/-- `_MONTH_MAP` (`src/app.py`): exactly the Python dictionary — note it
has no entry for the regex-accepted token "sepember". -/
def MONTH_MAP : List (String × Nat) :=
  [("jan", 1), ("january", 1), ("feb", 2), ("february", 2),
   ("mar", 3), ("march", 3), ("apr", 4), ("april", 4), ("may", 5),
   ("jun", 6), ("june", 6), ("jul", 7), ("july", 7),
   ("aug", 8), ("august", 8),
   ("sep", 9), ("sept", 9), ("september", 9),
   ("oct", 10), ("october", 10), ("nov", 11), ("november", 11),
   ("dec", 12), ("december", 12)]

/-- The uncaught `KeyError` a failed `_MONTH_MAP[...]` lookup raises. -/
def keyErrorMsg (k : String) : String := "KeyError: " ++ k

/-- `_half_year_range_from_query` (`src/app.py`): H1 gives
[Jan 1, Jul 1), H2 gives [Jul 1, Jan 1 of the next year), of the
referenced year; otherwise both bounds are `None`. -/
def halfYearRangeFromQuery (q : String) (default_year : Nat) :
    Option Timestamp × Option Timestamp :=
  let ql := strLower q
  let y := yearFromQuery ql default_year
  if altSearch h1Alts ql.toList then
    (some (Timestamp.ofYMD y 1 1), some (Timestamp.ofYMD y 7 1))
  else if altSearch h2Alts ql.toList then
    (some (Timestamp.ofYMD y 7 1), some (Timestamp.ofYMD (y + 1) 1 1))
  else (none, none)

/-- `start + pd.offsets.MonthBegin(1)` for a month-start timestamp:
the first day of the following month. -/
def nextMonthStart (y mon : Nat) : Timestamp :=
  if mon = 12 then Timestamp.ofYMD (y + 1) 1 1 else Timestamp.ofYMD y (mon + 1) 1

/-- `_month_range_from_query` (`src/app.py`): the first month token in
the lower-cased text is looked up in `_MONTH_MAP` — an uncaught
`KeyError` for the regex-accepted token "sepember" — and gives
[month start, next month start); no match leaves both bounds `None`. -/
def monthRangeFromQuery (q : String) (default_year : Nat) :
    Except String (Option Timestamp × Option Timestamp) :=
  let ql := strLower q
  match monthSearch ql.toList with
  | none => .ok (none, none)
  | some tok =>
    match List.lookup tok MONTH_MAP with
    | none => .error (keyErrorMsg tok)
    | some mon =>
      let y := yearFromQuery ql default_year
      .ok (some (Timestamp.ofYMD y mon 1), some (nextMonthStart y mon))

/-- `_extract_equipment_id` (`src/app.py`): first known value whose
lower-cased form is a substring of the lower-cased question.  Python
iterates a `set`, whose order is unspecified; the model fixes a list
order (the spec records this nondeterminism as an open question). -/
def extractEquipmentId (q : String) (known_equipment : List String) : Option String :=
  let ql := strLower q
  known_equipment.find? (fun e => containsSub ql (strLower e))

/-- `_extract_product_line` (`src/app.py`). -/
def extractProductLine (q : String) (known_product_lines : List String) : Option String :=
  let ql := strLower q
  known_product_lines.find? (fun p => containsSub ql (strLower p))

/-- The fallback phrase table of `_extract_symptom_code`. -/
def phraseMap : List (String × String) :=
  [("pressure fault", "PRESSURE_FAULT"), ("spindle timeout", "SPINDLE_TIMEOUT"),
   ("bearing wear", "BEARING_WEAR"), ("hydraulic leak", "HYDRAULIC_LEAK"),
   ("alignment drift", "ALIGNMENT_DRIFT"), ("sensor failure", "SENSOR_FAILURE")]

/-- `_extract_symptom_code` (`src/app.py`): first known code appearing
verbatim (case-insensitively); else the first fallback phrase whose
mapped code is itself known. -/
def extractSymptomCode (q : String) (known_symptoms : List String) : Option String :=
  let ql := strLower q
  match known_symptoms.find? (fun s => containsSub ql (strLower s)) with
  | some s => some s
  | none =>
    (phraseMap.findSome? (fun pc =>
      if containsSub ql pc.1 && known_symptoms.contains pc.2 then some pc.2 else none))

/-- `extract_filters` (`src/app.py`): equipment / product line / symptom
matching plus the date range, trying half-year phrases first and month
parsing only when the half-year parse produced no bounds.  The month
parse's uncaught `KeyError` propagates out of `extract_filters`. -/
def extract_filters (q : String) (known_equipment known_product_lines known_symptoms :
    List String) (default_year : Nat) : Except String Filters :=
  let eq := extractEquipmentId q known_equipment
  let pl := extractProductLine q known_product_lines
  let sym := extractSymptomCode q known_symptoms
  let p := halfYearRangeFromQuery q default_year
  if p.1.isNone && p.2.isNone then
    match monthRangeFromQuery q default_year with
    | .error e => .error e
    | .ok p' =>
      .ok { equipment_id := eq, product_line := pl, symptom_code := sym,
            start_ts_min := p'.1, start_ts_max := p'.2 }
  else
    .ok { equipment_id := eq, product_line := pl, symptom_code := sym,
          start_ts_min := p.1, start_ts_max := p.2 }

/-! ### Mention-keyword extraction and the orchestrators -/

/-- A quote character of the pattern matching text inside quotes
(either kind may open or close). -/
def isQuote (c : Char) : Bool := c == '\'' || c == '"'

/-- First quoted span of the original (not lower-cased) text: a quote
character, one or more non-quote characters (greedy), a quote
character. -/
def quotedScan : List Char → Option String
  | [] => none
  | c :: rest =>
    if isQuote c then
      let run := rest.takeWhile (fun d => !isQuote d)
      let after := rest.drop run.length
      if !run.isEmpty && (match after with | d :: _ => isQuote d | [] => false) then
        some (String.mk run)
      else quotedScan rest
    else quotedScan rest

/-- The keyword verbs of the final fallback pattern, in alternation order. -/
def mentionKws : List String :=
  ["mention", "mentions", "contain", "contains", "containing"]

/-- A character of the captured group `[a-z0-9_-]+`. -/
def isKwChar (c : Char) : Bool := c.isLower || c.isDigit || c == '_' || c == '-'

/-- The captured word: maximal non-empty run of `[a-z0-9_-]` characters. -/
def tryToken (cs : List Char) : Option String :=
  let run := cs.takeWhile isKwChar
  if run.isEmpty then none else some (String.mk run)

/-- `(?:a|an|the)?\s*([a-z0-9_-]+)`: optional article tried in
alternation order (absent last); no boundary after the article, so the
article may eat a prefix of the following word, exactly as the Python
regex does. -/
def tryArticle (cs : List Char) : Option String :=
  (["a", "an", "the", ""].findSome? (fun art =>
    match matchLit cs art.toList with
    | some rest => tryToken (rest.dropWhile Char.isWhitespace)
    | none => none))

/-- One position of the fallback pattern
`\b(?:mention|mentions|contain|contains|containing)\b\s+(?:a|an|the)?\s*([a-z0-9_-]+)`. -/
def mentionAt (cs : List Char) (i : Nat) : Option String :=
  if boundaryBefore cs i then
    mentionKws.findSome? (fun kw =>
      match matchLit (cs.drop i) kw.toList with
      | some rest =>
        if boundaryAfter rest then
          let wsRun := rest.takeWhile Char.isWhitespace
          if wsRun.isEmpty then none
          else tryArticle (rest.drop wsRun.length)
        else none
      | none => none)
  else none

/-- `re.search` for the fallback pattern: leftmost position wins. -/
def mentionFollow (cs : List Char) : Option String :=
  (List.range cs.length).findSome? (mentionAt cs)

/-- `extract_mention_keyword` (`src/app.py`): quoted span first, then
the fixed words leak / bearing, then the word following a mention verb,
else the empty string. -/
def extract_mention_keyword (q : String) : String :=
  match quotedScan q.toList with
  | some s => strTrim s
  | none =>
    let ql := strLower q
    if containsSub ql "leak" then "leak"
    else if containsSub ql "bearing" then "bearing"
    else
      match mentionFollow ql.toList with
      | some w => strTrim w
      | none => ""

/-- `str.isdigit()` for the answers at hand: non-empty and all digits. -/
def isDigitString (s : String) : Bool :=
  !s.toList.isEmpty && s.toList.all Char.isDigit

/-- `maybe_llm` (`src/app.py`): empty answers and pure numeric answers
bypass the optional paraphrase; with the LLM disabled (the default
`USE_LLM=0`) every answer passes through unchanged.  The reachable LLM
is modelled by the oracle `rw`. -/
def maybe_llm (useLLM : Bool) (rw : String → String → String)
    (user deterministic_answer : String) : String :=
  if deterministic_answer = "" then deterministic_answer
  else if isDigitString (strTrim deterministic_answer) then deterministic_answer
  else if useLLM then rw user deterministic_answer
  else deterministic_answer

/-- The known-value sets and default year that the orchestrators derive
once from the incident table. -/
structure QEnv where
  knownEquipment : List String
  knownProductLines : List String
  knownSymptoms : List String
  defaultYear : Nat

/-- The `most_common_symptom` answer string: one winner gives
`"<code> with <n> work orders"`, several give
`"<code1> and <code2> ... , each with <n> work orders"`. -/
def formatTied (tied : List (String × Nat)) : String :=
  match tied with
  | [] => ""
  | (c, n) :: rest =>
    if rest.isEmpty then c ++ " with " ++ toString n ++ " work orders"
    else joinSep " and " (tied.map Prod.fst) ++ ", each with " ++
      toString n ++ " work orders"

/-- Intent dispatch of `answer_question` (`src/webapp.py`, lines 67-112):
one branch per handled intent; `count_distinct_equipment`,
`compare_equipment`, `what_about` and `unknown` all fall through to the
final empty-string return.  The `top_equipment` / `top_technician`
branches pass a fresh empty `Filters()` instead of the extracted one.
A ValueError raised by the technician analytics propagates as
`.error`. -/
def answerCore (t : WOTable) (useLLM : Bool) (rw : String → String → String)
    (user : String) (it : String) (f : Filters) : Except String String :=
  match it with
  | "count_mentions" =>
    .ok (maybe_llm useLLM rw user
      (toString (count_mentions t.rows (extract_mention_keyword user) f)))
  | "count_incidents" =>
    .ok (maybe_llm useLLM rw user (toString (count_incidents t.rows f)))
  | "count_distinct_technicians" =>
    (count_distinct_technicians t f).map (fun n => maybe_llm useLLM rw user (toString n))
  | "most_common_symptom" =>
    match most_common_symptoms t.rows f with
    | [] => .ok ""
    | p :: rest => .ok (maybe_llm useLLM rw user (formatTied (p :: rest)))
  | "top_equipment" =>
    match top_equipment t.rows 1 {} with
    | [] => .ok ""
    | (e, n) :: _ =>
      .ok (maybe_llm useLLM rw user (e ++ " with " ++ toString n ++ " work orders"))
  | "top_technician" =>
    (top_technicians t 1 {}).map (fun r =>
      match r with
      | [] => ""
      | (tech, n) :: _ =>
        maybe_llm useLLM rw user (tech ++ " with " ++ toString n ++ " work orders"))
  | _ => .ok ""

/-- `answer_question` (`src/webapp.py`): strip the question, answer the
empty question with the empty string, otherwise extract filters (an
uncaught extraction `KeyError` propagates, since Python evaluates
`extract_filters` before dispatching on the intent), classify the
intent and dispatch. -/
def answer_question (t : WOTable) (env : QEnv) (useLLM : Bool)
    (rw : String → String → String) (q : String) : Except String String :=
  let user := strTrim q
  if user = "" then .ok ""
  else
    match extract_filters user env.knownEquipment env.knownProductLines
        env.knownSymptoms env.defaultYear with
    | .error e => .error e
    | .ok f => answerCore t useLLM rw user (intent user) f

/-- The inline `count_distinct_equipment` handler of the CLI loop
(`src/app.py`, lines 302-321): it re-implements the filtering on the
spot (same truthiness guards as `filter_work_orders`) and prints the
`nunique` of `equipment_id`. -/
def cliDistinctEquipmentCount (work_orders : List Incident) (f : Filters) : Nat :=
  let df := work_orders
  let df := match f.equipment_id with
    | none => df
    | some s => if s = "" then df else df.filter (fun i => i.equipment_id == s)
  let df := match f.product_line with
    | none => df
    | some s => if s = "" then df else df.filter (fun i => i.product_line == s)
  let df := match f.symptom_code with
    | none => df
    | some s => if s = "" then df else df.filter (fun i => i.symptom_code == s)
  let df := match f.start_ts_min with
    | none => df
    | some t => df.filter (fun i => decide (t.key ≤ i.start_ts.key))
  let df := match f.start_ts_max with
    | none => df
    | some t => df.filter (fun i => decide (i.start_ts.key < t.key))
  ((df.map (fun i => i.equipment_id)).dedup).length

/-! ### Ingestion: `build_work_orders` (`src/data.py`) -/

/-- One raw event row (one technician update) after `load_events`. -/
structure Event where
  work_order_id : Int
  equipment_id : String
  product_line : String
  symptom_code : String
  description : String
  technician : String
  comment : String
  start_ts : Timestamp
  end_ts : Timestamp
deriving DecidableEq, Repr

/-- The sort key order of
`events.sort_values(["work_order_id", "start_ts", "end_ts"])`. -/
def eventLe (a b : Event) : Prop :=
  a.work_order_id < b.work_order_id ∨
    (a.work_order_id = b.work_order_id ∧
      (a.start_ts.key < b.start_ts.key ∨
        (a.start_ts.key = b.start_ts.key ∧ a.end_ts.key ≤ b.end_ts.key)))

instance : DecidableRel eventLe := fun a b =>
  inferInstanceAs (Decidable (a.work_order_id < b.work_order_id ∨
    (a.work_order_id = b.work_order_id ∧
      (a.start_ts.key < b.start_ts.key ∨
        (a.start_ts.key = b.start_ts.key ∧ a.end_ts.key ≤ b.end_ts.key)))))

/-- The deterministically sorted event table. -/
def sortedEvents (events : List Event) : List Event :=
  List.insertionSort eventLe events

/-- The groupby keys: distinct `work_order_id` values in order of first
appearance of the sorted table (pandas enumerates groups in ascending
key order; on a sorted table first-appearance order is the same). -/
def woIds (events : List Event) : List Int :=
  ((sortedEvents events).map (fun e => e.work_order_id)).dedup

/-- The event group of one work order, in sorted order. -/
def groupOf (events : List Event) (id : Int) : List Event :=
  (sortedEvents events).filter (fun e => e.work_order_id == id)

/-- Fold computing the `min` of a non-empty timestamp collection. -/
def tsListMin : Timestamp → List Timestamp → Timestamp
  | x, [] => x
  | x, y :: ys => tsListMin (if x.key ≤ y.key then x else y) ys

/-- Fold computing the `max` of a non-empty timestamp collection. -/
def tsListMax : Timestamp → List Timestamp → Timestamp
  | x, [] => x
  | x, y :: ys => tsListMax (if y.key ≤ x.key then x else y) ys

/-- `_concat_comments` (`src/data.py`): strip each comment, drop empty
ones, drop exact consecutive duplicates (the last kept comment is the
reference), keep chronological order. -/
def cleanComments : List String → Option String → List String
  | [], _ => []
  | x :: xs, last =>
    let t := strTrim x
    if t = "" then cleanComments xs last
    else if some t = last then cleanComments xs last
    else t :: cleanComments xs (some t)

/-- The aggregation of one event group (`agg` of `build_work_orders`):
representative fields from the first sorted event, min / max
timestamps, sorted distinct non-blank technician names, cleaned
newline-joined comments, event count. -/
def aggGroup (id : Int) (g : List Event) : Incident :=
  match g with
  | [] =>
    { work_order_id := id, equipment_id := "", product_line := "",
      symptom_code := "", description := "", technicians := [],
      comments := "", n_updates := 0, start_ts := ⟨0⟩, end_ts := ⟨0⟩ }
  | e :: es =>
    { work_order_id := id
      equipment_id := e.equipment_id
      product_line := e.product_line
      symptom_code := e.symptom_code
      description := e.description
      technicians := List.insertionSort strLe
        ((((e :: es).map (fun x => x.technician)).filter (fun s => strTrim s != "")).dedup)
      comments := joinSep "\n" (cleanComments ((e :: es).map (fun x => x.comment)) none)
      n_updates := (e :: es).length
      start_ts := tsListMin e.start_ts (es.map (fun x => x.start_ts))
      end_ts := tsListMax e.end_ts (es.map (fun x => x.end_ts)) }

/-- `build_work_orders` (`src/data.py`): sort the events, group by
`work_order_id`, aggregate each group to one incident row. -/
def build_work_orders (events : List Event) : List Incident :=
  (woIds events).map (fun id => aggGroup id (groupOf events id))

/-! ### Spec-side definitions

These follow the wording of the specification / claims, to be compared
with the code-side definitions above. -/

/-- Modelled from the spec: the date-range resolution of the filter
extractor — resolve the referenced year (first `20\d\d` token, else
default), try half-year phrases, then calendar months, else leave both
bounds unset — together with the code's actual failure mode: a matched
month token absent from `_MONTH_MAP` (only "sepember") raises. -/
def specDateRange (q : String) (default_year : Nat) :
    Except String (Option Timestamp × Option Timestamp) :=
  let ql := strLower q
  let y := yearFromQuery ql default_year
  if altSearch h1Alts ql.toList then
    .ok (some (Timestamp.ofYMD y 1 1), some (Timestamp.ofYMD y 7 1))
  else if altSearch h2Alts ql.toList then
    .ok (some (Timestamp.ofYMD y 7 1), some (Timestamp.ofYMD (y + 1) 1 1))
  else
    match monthSearch ql.toList with
    | none => .ok (none, none)
    | some tok =>
      match List.lookup tok MONTH_MAP with
      | none => .error (keyErrorMsg tok)
      | some mon => .ok (some (Timestamp.ofYMD y mon 1), some (nextMonthStart y mon))

/-- Modelled from the spec: the number of distinct work orders in whose
(cleaned) technician list a given technician appears. -/
def specDistinctIncidents (df : List Incident) (tech : String) : Nat :=
  (((df.filter (fun i => i.technicians.any (fun s => strTrim s == tech))).map
    (fun i => i.work_order_id)).dedup).length

/-- Modelled from the claim C5 wording: the number of filtered incidents
whose `description + "\n" + comments` contains the keyword itself (no
trimming) as a case-insensitive literal substring. -/
def literalMentionCount (work_orders : List Incident) (keyword : String)
    (f : Filters) : Nat :=
  (filter_work_orders work_orders f).countP
    (fun i => containsSub (strLower (hayOf i)) (strLower keyword))

/-- Claim C6's narrowing relation: `g` agrees with every populated field
of `f` and populates at least one field `f` leaves open. -/
def Narrower (g f : Filters) : Prop :=
  (f.equipment_id.isSome → g.equipment_id = f.equipment_id) ∧
  (f.product_line.isSome → g.product_line = f.product_line) ∧
  (f.symptom_code.isSome → g.symptom_code = f.symptom_code) ∧
  (f.start_ts_min.isSome → g.start_ts_min = f.start_ts_min) ∧
  (f.start_ts_max.isSome → g.start_ts_max = f.start_ts_max) ∧
  ((g.equipment_id.isSome ∧ ¬ f.equipment_id.isSome) ∨
   (g.product_line.isSome ∧ ¬ f.product_line.isSome) ∨
   (g.symptom_code.isSome ∧ ¬ f.symptom_code.isSome) ∨
   (g.start_ts_min.isSome ∧ ¬ f.start_ts_min.isSome) ∨
   (g.start_ts_max.isSome ∧ ¬ f.start_ts_max.isSome))

instance (g f : Filters) : Decidable (Narrower g f) :=
  inferInstanceAs (Decidable (
    (f.equipment_id.isSome → g.equipment_id = f.equipment_id) ∧
    (f.product_line.isSome → g.product_line = f.product_line) ∧
    (f.symptom_code.isSome → g.symptom_code = f.symptom_code) ∧
    (f.start_ts_min.isSome → g.start_ts_min = f.start_ts_min) ∧
    (f.start_ts_max.isSome → g.start_ts_max = f.start_ts_max) ∧
    ((g.equipment_id.isSome ∧ ¬ f.equipment_id.isSome) ∨
     (g.product_line.isSome ∧ ¬ f.product_line.isSome) ∨
     (g.symptom_code.isSome ∧ ¬ f.symptom_code.isSome) ∨
     (g.start_ts_min.isSome ∧ ¬ f.start_ts_min.isSome) ∨
     (g.start_ts_max.isSome ∧ ¬ f.start_ts_max.isSome))))

/-- The row-level predicate equivalent to the five sequential guards of
`filter_work_orders`. -/
def keeps (f : Filters) (i : Incident) : Prop :=
  (∀ s, f.equipment_id = some s → s ≠ "" → i.equipment_id = s) ∧
  (∀ s, f.product_line = some s → s ≠ "" → i.product_line = s) ∧
  (∀ s, f.symptom_code = some s → s ≠ "" → i.symptom_code = s) ∧
  (∀ ts, f.start_ts_min = some ts → ts.key ≤ i.start_ts.key) ∧
  (∀ ts, f.start_ts_max = some ts → i.start_ts.key < ts.key)

/-- The global (unfiltered) `top_equipment` answer string computed by
the `top_equipment` branch of the orchestrator; it does not depend on
the question. -/
def topEquipmentAnswer (t : WOTable) : String :=
  match top_equipment t.rows 1 {} with
  | [] => ""
  | (e, n) :: _ => e ++ " with " ++ toString n ++ " work orders"

/-- The global (unfiltered) `top_technician` answer of the orchestrator;
it does not depend on the question. -/
def topTechnicianAnswer (t : WOTable) : Except String String :=
  (top_technicians t 1 {}).map (fun r =>
    match r with
    | [] => ""
    | (tech, n) :: _ => tech ++ " with " ++ toString n ++ " work orders")

/-! ### Concrete fixtures used to evaluate the theorems on closed inputs -/

/-- The identity paraphrase oracle (the LLM bridge is out of scope). -/
def rwId : String → String → String := fun _ s => s

/-- A compact incident-row constructor for fixtures. -/
def sampleInc (wo : Int) (eqid sym desc comm : String) (techs : List String)
    (st : Nat) : Incident :=
  { work_order_id := wo, equipment_id := eqid, product_line := "PL",
    symptom_code := sym, description := desc, technicians := techs,
    comments := comm, n_updates := 1, start_ts := ⟨st⟩, end_ts := ⟨st + 1⟩ }

def rowsC1 : List Incident :=
  [sampleInc 1 "E1" "A" "" "" [] 10, sampleInc 2 "E1" "B" "" "" [] 11,
   sampleInc 3 "E2" "A" "" "" [] 12, sampleInc 4 "E2" "B" "" "" [] 13,
   sampleInc 5 "E3" "C" "" "" [] 14]

def tblC4 : WOTable :=
  ⟨true, [sampleInc 1 "E1" "S" "" "" ["Alice", "Bob"] 10,
          sampleInc 2 "E1" "S" "" "" ["Alice"] 11,
          sampleInc 3 "E2" "S" "" "" [" Bob ", ""] 12]⟩

def incC5 : Incident := sampleInc 1 "E1" "S" "leak" "" [] 10

def rowsC5 : List Incident :=
  [sampleInc 1 "E1" "S" "oil Leak found" "" [] 10,
   sampleInc 2 "E1" "S" "fine" "all ok" [] 11]

def wosC6 : List Incident :=
  [sampleInc 3 "E1" "S" "" "" [] 10, sampleInc 4 "E2" "S" "" "" [] 11]

def gC6 : Filters := { equipment_id := some "E1" }

def tblC7 : WOTable :=
  ⟨true, [sampleInc 1 "E1" "S" "" "" ["Alice"] 10,
          sampleInc 2 "E1" "S" "" "" ["Bob"] 11,
          sampleInc 3 "E2" "S" "" "" ["Bob"] 12]⟩

def envC7 : QEnv := ⟨["E1", "E2"], ["PL"], ["S"], 2024⟩

def tblC8 : WOTable := ⟨true, [sampleInc 1 "E1" "S" "" "" ["Alice"] 10]⟩

def envC8 : QEnv := ⟨["E1"], ["PL"], ["S"], 2024⟩

def tblC9 : WOTable := ⟨false, [sampleInc 1 "E1" "S" "" "" [] 10]⟩

def evsW : List Event :=
  [⟨1, "E1", "PL", "S", "d1", "Alice", "c1", ⟨10⟩, ⟨20⟩⟩,
   ⟨2, "E2", "PL", "S", "d2", "Carol", "c2", ⟨15⟩, ⟨25⟩⟩,
   ⟨1, "E1", "PL", "S", "d1b", "Bob", "c1", ⟨5⟩, ⟨30⟩⟩]

end MaintQA

namespace MaintQA

/-- C2 fails as stated: the code's rule 9 strips the lower-cased text
before the starts-with test, which the claimed cascade does not state,
so a question with leading whitespace before "what about" is classified
what_about by the code while the claim's literal cascade gives
unknown. -/
theorem claim2_counterexample :
    intent "  what about CNC-01" = "what_about" ∧
    intentSpec "  what about CNC-01" = "unknown" :=
  ⟨by decide, by decide⟩

/-- C2 (amended): `intent` lower-cases the text and evaluates the
ordered cascade of substring tests, first match winning, in the stated
precedence — except that the final rule tests whether the text STRIPPED
of surrounding whitespace starts with "what about" — returning the
unknown tag when no rule fires. -/
theorem claim2_intent_cascade (q : String) : intent q = intentSpecAmended q := by
  rfl

/-! ### Row-level characterisation of `filter_work_orders` -/

theorem mem_applyStrFilter {get : Incident → String} {o : Option String}
    {df : List Incident} {i : Incident} :
    i ∈ applyStrFilter get o df ↔
      i ∈ df ∧ (∀ s, o = some s → s ≠ "" → get i = s) := by
  cases o with
  | none => simp [applyStrFilter]
  | some s =>
    by_cases hs : s = ""
    · subst hs
      simp [applyStrFilter]
    · simp only [applyStrFilter, if_neg hs, List.mem_filter, beq_iff_eq]
      constructor
      · rintro ⟨h1, h2⟩
        refine ⟨h1, ?_⟩
        rintro s' hs' -
        cases hs'
        exact h2
      · rintro ⟨h1, h2⟩
        exact ⟨h1, h2 s rfl hs⟩

theorem mem_applyMinFilter {o : Option Timestamp} {df : List Incident} {i : Incident} :
    i ∈ applyMinFilter o df ↔
      i ∈ df ∧ (∀ t, o = some t → t.key ≤ i.start_ts.key) := by
  cases o <;> simp [applyMinFilter, List.mem_filter]

theorem mem_applyMaxFilter {o : Option Timestamp} {df : List Incident} {i : Incident} :
    i ∈ applyMaxFilter o df ↔
      i ∈ df ∧ (∀ t, o = some t → i.start_ts.key < t.key) := by
  cases o <;> simp [applyMaxFilter, List.mem_filter]

/-- A row survives `filter_work_orders` exactly when it satisfies the
conjunctive predicate `keeps`. -/
theorem mem_filter_work_orders {wos : List Incident} {f : Filters} {i : Incident} :
    i ∈ filter_work_orders wos f ↔ i ∈ wos ∧ keeps f i := by
  unfold filter_work_orders keeps
  rw [mem_applyMaxFilter, mem_applyMinFilter, mem_applyStrFilter,
    mem_applyStrFilter, mem_applyStrFilter]
  tauto

/-- C6: populated fields combine conjunctively, so a filter that agrees
with all populated fields of a wider filter and additionally populates
at least one more field returns a subset of the wider filter's
work-order ids. -/
theorem claim6_filter_monotonicity (g f : Filters) (wos : List Incident)
    (h : Narrower g f) :
    ∀ id : Int, id ∈ (filter_work_orders wos g).map (fun i => i.work_order_id) →
      id ∈ (filter_work_orders wos f).map (fun i => i.work_order_id) := by
  intro id hid
  rcases List.mem_map.mp hid with ⟨i, hi, rfl⟩
  rcases mem_filter_work_orders.mp hi with ⟨hw, hk⟩
  refine List.mem_map.mpr ⟨i, mem_filter_work_orders.mpr ⟨hw, ?_⟩, rfl⟩
  obtain ⟨h1, h2, h3, h4, h5, -⟩ := h
  obtain ⟨k1, k2, k3, k4, k5⟩ := hk
  refine ⟨fun s hs hne => ?_, fun s hs hne => ?_, fun s hs hne => ?_,
    fun t ht => ?_, fun t ht => ?_⟩
  · exact k1 s ((h1 (by simp [hs])).trans hs) hne
  · exact k2 s ((h2 (by simp [hs])).trans hs) hne
  · exact k3 s ((h3 (by simp [hs])).trans hs) hne
  · exact k4 t ((h4 (by simp [ht])).trans ht)
  · exact k5 t ((h5 (by simp [ht])).trans ht)

theorem claim6_witness :
    Narrower gC6 {} ∧
    ((3 : Int) ∈ (filter_work_orders wosC6 {}).map (fun i => i.work_order_id)) :=
  ⟨by decide, claim6_filter_monotonicity gC6 {} wosC6 (by decide) 3 (by decide)⟩

/-- The date bounds produced by `extract_filters` agree with the
spec-side resolution, including the raising month-lookup path. -/
theorem extract_filters_dateRange (q : String) (ke kp ks : List String) (dy : Nat) :
    (extract_filters q ke kp ks dy).map (fun f => (f.start_ts_min, f.start_ts_max)) =
      specDateRange q dy := by
  unfold extract_filters specDateRange halfYearRangeFromQuery monthRangeFromQuery
  cases h1 : altSearch h1Alts (strLower q).data with
  | true => simp [h1, Except.map]
  | false =>
    cases h2 : altSearch h2Alts (strLower q).data with
    | true => simp [h1, h2, Except.map]
    | false =>
      cases hm : monthSearch (strLower q).data with
      | none => simp [h1, h2, hm, Except.map]
      | some tok =>
        cases hl : List.lookup tok MONTH_MAP with
        | none => simp [h1, h2, hm, hl, Except.map]
        | some mon => simp [h1, h2, hm, hl, Except.map]

/-- C3: the resolution is as claimed except on the regex-accepted
misspelling "sepember": the month regex matches it, `_MONTH_MAP` has no
entry for it, so `_MONTH_MAP[m.group(1)]` raises an uncaught KeyError
and `extract_filters` fails instead of resolving a range or leaving the
bounds unset — against the spec's own promise that filter extraction
never raises and degrades to "no constraint" (a code bug, evaluated
here at the failing input). -/
theorem claim3_month_keyerror :
    monthSearch (strLower "How many incidents in sepember?").data = some "sepember" ∧
    List.lookup "sepember" MONTH_MAP = none ∧
    extract_filters "How many incidents in sepember?" [] [] [] 2024 =
      .error (keyErrorMsg "sepember") :=
  ⟨by decide, by decide, by decide⟩

/-- C9 fails as stated: with the `technicians` column absent but an
empty filtered set, both functions return an empty result instead of
raising, because the `df.empty` check precedes the column check. -/
theorem claim9_counterexample :
    top_technicians ⟨false, []⟩ 5 {} = .ok [] ∧
    count_distinct_technicians ⟨false, []⟩ {} = .ok 0 :=
  ⟨by decide, by decide⟩

/-- C9 (amended): with the `technicians` column absent, both functions
raise the data-shape error exactly when the filtered set is non-empty;
an empty filtered set returns the empty result without raising. -/
theorem claim9_amended (t : WOTable) (n : Nat) (f : Filters)
    (ht : t.hasTechnicians = false) :
    (filter_work_orders t.rows f ≠ [] →
      top_technicians t n f = .error techColMsg ∧
      count_distinct_technicians t f = .error techColMsg) ∧
    (filter_work_orders t.rows f = [] →
      top_technicians t n f = .ok [] ∧
      count_distinct_technicians t f = .ok 0) := by
  unfold top_technicians count_distinct_technicians
  constructor
  · intro hne
    have he : (filter_work_orders t.rows f).isEmpty = false := by
      simpa [List.isEmpty_iff] using hne
    simp [he, ht]
  · intro hnil
    simp [hnil, ht]

theorem claim9_witness :
    tblC9.hasTechnicians = false ∧
    filter_work_orders tblC9.rows {} ≠ [] ∧
    (top_technicians tblC9 5 {} = .error techColMsg ∧
      count_distinct_technicians tblC9 {} = .error techColMsg) :=
  ⟨rfl, by decide, (claim9_amended tblC9 5 {} rfl).1 (by decide)⟩

/-- C5 fails as stated: `count_mentions` strips the keyword before
searching, so the keyword `" leak "` is counted in an incident whose
text is `"leak\n"` even though `" leak "` is not a literal substring of
it: the code returns 1 where the claim's literal reading returns 0. -/
theorem claim5_counterexample :
    count_mentions [incC5] " leak " {} = 1 ∧
    literalMentionCount [incC5] " leak " {} = 0 :=
  ⟨by decide, by decide⟩

/-- Lower-casing a string is empty exactly for the empty string. -/
theorem strLower_eq_empty_iff (s : String) : strLower s = "" ↔ s = "" := by
  constructor
  · intro h
    have h2 : s.data.map Char.toLower = [] := congrArg String.data h
    have h3 : s.data = [] := List.map_eq_nil_iff.mp h2
    rcases s with ⟨d⟩
    have h4 : d = [] := h3
    rw [h4]
  · rintro rfl
    rfl

/-- C5 (amended): a keyword that is empty — or whitespace-only, i.e.
empty after stripping — yields 0 unconditionally; for a keyword that is
non-empty after stripping, `count_mentions` counts the filtered
incidents whose lower-cased `description + "\n" + comments` contains
the stripped, lower-cased keyword as a literal substring. -/
theorem claim5_amended (wos : List Incident) (kw : String) (f : Filters) :
    (strTrim kw = "" → count_mentions wos kw f = 0) ∧
    (strTrim kw ≠ "" →
      count_mentions wos kw f =
        (filter_work_orders wos f).countP
          (fun i => containsSub (strLower (hayOf i)) (strLower (strTrim kw)))) := by
  constructor
  · intro h
    unfold count_mentions
    rw [h]
    rfl
  · intro h
    have h' : strLower (strTrim kw) ≠ "" := fun hc =>
      h ((strLower_eq_empty_iff (strTrim kw)).mp hc)
    unfold count_mentions
    rw [if_neg h']
    cases hd : (filter_work_orders wos f).isEmpty with
    | true =>
      have hnil : filter_work_orders wos f = [] := by
        simpa [List.isEmpty_iff] using hd
      simp [hnil]
    | false => simp [hd, List.countP_eq_length_filter]

theorem claim5_witness :
    strTrim "LEAK" ≠ "" ∧
    count_mentions rowsC5 "LEAK" {} =
      (filter_work_orders rowsC5 {}).countP
        (fun i => containsSub (strLower (hayOf i)) (strLower (strTrim "LEAK"))) :=
  ⟨by decide, (claim5_amended rowsC5 "LEAK" {}).2 (by decide)⟩

/-! ### Orchestrator claims -/

/-- With the LLM disabled (the default), `maybe_llm` is the identity. -/
theorem maybe_llm_disabled (rw : String → String → String) (user det : String) :
    maybe_llm false rw user det = det := by
  unfold maybe_llm
  split_ifs <;> first | rfl | contradiction

/-- `answerCore` at the `top_technician` tag, by computation. -/
theorem answerCore_top_technician (t : WOTable) (u : Bool)
    (rw : String → String → String) (user : String) (f : Filters) :
    answerCore t u rw user "top_technician" f =
      (top_technicians t 1 {}).map (fun r =>
        match r with
        | [] => ""
        | (tech, n) :: _ =>
          maybe_llm u rw user (tech ++ " with " ++ toString n ++ " work orders")) := rfl

/-- C7 fails as stated: `extract_filters` is evaluated before the
intent dispatch, so a top_equipment question containing the
crash-inducing token "sepember" makes `answer_question` raise the
extraction KeyError instead of returning the global answer — a date
phrase in the text can change the outcome after all. -/
theorem claim7_counterexample :
    intent (strTrim "which equipment has the most incidents in sepember") =
      "top_equipment" ∧
    answer_question tblC7 envC7 false rwId
      "which equipment has the most incidents in sepember" =
      .error (keyErrorMsg "sepember") :=
  ⟨by decide, by decide⟩

/-- C7 (amended): whenever filter extraction does not raise (it raises
only on the "sepember" KeyError path), a `top_equipment` /
`top_technician` question is answered from the GLOBAL (unfiltered)
table: `answer_question` equals an expression that does not mention the
question's extracted filter at all, so any equipment / product-line /
symptom / date constraint in the text leaves the answer unchanged. -/
theorem claim7_global_top_ignores_filter (t : WOTable) (env : QEnv)
    (rw : String → String → String) (q : String) (f : Filters)
    (hok : extract_filters (strTrim q) env.knownEquipment env.knownProductLines
      env.knownSymptoms env.defaultYear = .ok f) :
    (intent (strTrim q) = "top_equipment" →
      answer_question t env false rw q = .ok (topEquipmentAnswer t)) ∧
    (intent (strTrim q) = "top_technician" →
      answer_question t env false rw q = topTechnicianAnswer t) := by
  constructor <;> intro h
  · have hq : ¬ strTrim q = "" := fun h0 => by
      rw [h0] at h; exact absurd h (by decide)
    unfold answer_question
    simp only []
    rw [if_neg hq, hok]
    show answerCore t false rw (strTrim q) (intent (strTrim q)) f = _
    rw [h]
    unfold topEquipmentAnswer
    show (match top_equipment t.rows 1 {} with
      | [] => Except.ok ""
      | (e, n) :: _ =>
        Except.ok (maybe_llm false rw (strTrim q)
          (e ++ " with " ++ toString n ++ " work orders"))) = _
    cases hte : top_equipment t.rows 1 {} with
    | nil => rfl
    | cons p rest =>
      obtain ⟨e, n⟩ := p
      simp [maybe_llm_disabled]
  · have hq : ¬ strTrim q = "" := fun h0 => by
      rw [h0] at h; exact absurd h (by decide)
    unfold answer_question
    simp only []
    rw [if_neg hq, hok]
    show answerCore t false rw (strTrim q) (intent (strTrim q)) f = _
    rw [h]
    unfold topTechnicianAnswer
    rw [answerCore_top_technician]
    cases htt : top_technicians t 1 {} with
    | error e => rfl
    | ok r =>
      cases r with
      | nil => rfl
      | cons p rest =>
        obtain ⟨tech, n⟩ := p
        simp [Except.map, maybe_llm_disabled]

theorem claim7_witness :
    extract_filters (strTrim "which equipment has the most incidents")
      envC7.knownEquipment envC7.knownProductLines envC7.knownSymptoms
      envC7.defaultYear = .ok { symptom_code := some "S" } ∧
    intent (strTrim "which equipment has the most incidents") = "top_equipment" ∧
    answer_question tblC7 envC7 false rwId "which equipment has the most incidents" =
      .ok (topEquipmentAnswer tblC7) :=
  ⟨by decide, by decide,
    (claim7_global_top_ignores_filter tblC7 envC7 rwId
      "which equipment has the most incidents" { symptom_code := some "S" }
      (by decide)).1 (by decide)⟩

/-- C8 fails as stated: the web entry point `answer_question` has no
`count_distinct_equipment` branch, so for a question of that intent over
a one-incident table it answers the empty string, not the decimal
string "1" of the distinct equipment count in the filtered set (here
the extracted filter is all-open); moreover, with the crash token
"sepember" in the text, the same intent yields an extraction error
rather than any of the claim's enumerated empty-string cases. -/
theorem claim8_counterexample :
    answer_question tblC8 envC8 false rwId "different equipment" = .ok "" ∧
    extract_filters "different equipment" ["E1"] ["PL"] ["S"] 2024 = .ok {} ∧
    toString (count_distinct_equipment tblC8.rows {}) = "1" ∧
    answer_question tblC8 envC8 false rwId "different equipment in sepember" =
      .error (keyErrorMsg "sepember") :=
  ⟨by decide, by decide, by decide, by decide⟩

/-- C8 (amended): in the web entry point, a `count_distinct_equipment`
question falls through to the empty-string answer whenever filter
extraction does not raise (no handler exists for the intent); only the
CLI loop computes the distinct-equipment count, and its inline
filtering agrees with `filter_work_orders`. -/
theorem claim8_amended :
    (∀ (t : WOTable) (env : QEnv) (rw : String → String → String) (q : String)
      (f : Filters),
      extract_filters (strTrim q) env.knownEquipment env.knownProductLines
        env.knownSymptoms env.defaultYear = .ok f →
      intent (strTrim q) = "count_distinct_equipment" →
      answer_question t env false rw q = .ok "") ∧
    (∀ (wos : List Incident) (f : Filters),
      cliDistinctEquipmentCount wos f =
        ((filter_work_orders wos f).map (fun i => i.equipment_id)).dedup.length) := by
  constructor
  · intro t env rw q f hok h
    have hq : ¬ strTrim q = "" := fun h0 => by
      rw [h0] at h; exact absurd h (by decide)
    unfold answer_question
    simp only []
    rw [if_neg hq, hok]
    show answerCore t false rw (strTrim q) (intent (strTrim q)) f = _
    rw [h]
    rfl
  · intro wos f
    rfl

theorem claim8_witness :
    extract_filters (strTrim "how many different equipment") envC8.knownEquipment
      envC8.knownProductLines envC8.knownSymptoms envC8.defaultYear = .ok {} ∧
    intent (strTrim "how many different equipment") = "count_distinct_equipment" ∧
    answer_question tblC8 envC8 false rwId "how many different equipment" = .ok "" :=
  ⟨by decide, by decide,
    claim8_amended.1 tblC8 envC8 rwId "how many different equipment" {}
      (by decide) (by decide)⟩

/-! ### Most-common-symptom claims -/

theorem le_foldr_max {l : List Nat} {x : Nat} (hx : x ∈ l) : x ≤ l.foldr max 0 := by
  induction l with
  | nil => simp at hx
  | cons a t ih =>
    rcases List.mem_cons.mp hx with rfl | h'
    · exact le_max_left _ _
    · exact (ih h').trans (le_max_right _ _)

theorem foldr_max_mem {l : List Nat} (h : l ≠ []) :
    l.foldr max 0 ∈ l ∨ l.foldr max 0 = 0 := by
  induction l with
  | nil => exact absurd rfl h
  | cons a t ih =>
    by_cases ht : t = []
    · subst ht
      simp
    · rcases ih ht with hmem | hzero
      · rcases Nat.le_total a (t.foldr max 0) with hle | hle
        · rw [List.foldr_cons, max_eq_right hle]
          exact Or.inl (List.mem_cons_of_mem _ hmem)
        · rw [List.foldr_cons, max_eq_left hle]
          exact Or.inl (List.mem_cons_self _ _)
      · rw [List.foldr_cons, hzero, Nat.max_zero]
        exact Or.inl (List.mem_cons_self _ _)

theorem mem_symptomCodesDedup {df : List Incident} {c : String} :
    c ∈ symptomCodesDedup df ↔ ∃ i ∈ df, i.symptom_code = c := by
  simp [symptomCodesDedup]

theorem countSymptom_pos {df : List Incident} {c : String}
    (h : ∃ i ∈ df, i.symptom_code = c) : 0 < countSymptom df c := by
  obtain ⟨i, hi, hc⟩ := h
  have hmem : i ∈ df.filter (fun j => j.symptom_code == c) :=
    List.mem_filter.mpr ⟨hi, by simp [hc]⟩
  unfold countSymptom
  exact List.length_pos.mpr (List.ne_nil_of_mem hmem)

theorem exists_of_countSymptom_pos {df : List Incident} {c : String}
    (h : 0 < countSymptom df c) : ∃ i ∈ df, i.symptom_code = c := by
  unfold countSymptom at h
  obtain ⟨i, hi⟩ :=
    List.exists_mem_of_ne_nil _ (List.ne_nil_of_length_pos h)
  rcases List.mem_filter.mp hi with ⟨hdf, hc⟩
  exact ⟨i, hdf, by simpa using hc⟩

theorem countSymptom_le_maxCount {df : List Incident} {c : String}
    (hc : c ∈ symptomCodesDedup df) : countSymptom df c ≤ maxCount df :=
  le_foldr_max (List.mem_map.mpr ⟨c, hc, rfl⟩)

theorem maxCount_attained {df : List Incident} (h : df ≠ []) :
    ∃ c ∈ symptomCodesDedup df, countSymptom df c = maxCount df := by
  obtain ⟨i, hi⟩ := List.exists_mem_of_ne_nil df h
  have hcodes : i.symptom_code ∈ symptomCodesDedup df :=
    mem_symptomCodesDedup.mpr ⟨i, hi, rfl⟩
  have hmapne : (symptomCodesDedup df).map (countSymptom df) ≠ [] := by
    simp only [ne_eq, List.map_eq_nil_iff]
    exact List.ne_nil_of_mem hcodes
  rcases foldr_max_mem hmapne with hmem | hzero
  · rcases List.mem_map.mp hmem with ⟨c, hc, hceq⟩
    exact ⟨c, hc, hceq⟩
  · have h1 : 0 < countSymptom df i.symptom_code := countSymptom_pos ⟨i, hi, rfl⟩
    have h2 : countSymptom df i.symptom_code ≤ maxCount df :=
      countSymptom_le_maxCount hcodes
    have h3 : maxCount df = 0 := hzero
    omega

theorem most_common_symptoms_eq {wos : List Incident} {f : Filters}
    (h : filter_work_orders wos f ≠ []) :
    most_common_symptoms wos f =
      (List.insertionSort strLe
        ((symptomCodesDedup (filter_work_orders wos f)).filter
          (fun c => countSymptom (filter_work_orders wos f) c ==
            maxCount (filter_work_orders wos f)))).map
        (fun c => (c, maxCount (filter_work_orders wos f))) := by
  unfold most_common_symptoms
  have he : (filter_work_orders wos f).isEmpty = false := by
    simpa [List.isEmpty_iff] using h
  have hcodes : (symptomCodesDedup (filter_work_orders wos f)).isEmpty = false := by
    obtain ⟨i, hi⟩ := List.exists_mem_of_ne_nil _ h
    have hmem := mem_symptomCodesDedup.mpr ⟨i, hi, rfl⟩
    simpa [List.isEmpty_iff] using List.ne_nil_of_mem hmem
  simp [he, hcodes]

theorem strLe_iff_le (x y : String) : strLe x y ↔ x ≤ y := by
  unfold strLe
  rw [← not_lt, String.lt_iff_toList_lt]
  exact Iff.rfl

/-- C1: on an empty filtered set `most_common_symptoms` returns the
empty list; otherwise `maxCount` is the attained maximum symptom
frequency and the result contains exactly the pairs (code, maxCount)
of codes present at that maximum, strictly sorted by code; in
particular, two codes tied at `n` with all other codes strictly below
give exactly `[(A, n), (B, n)]`, never one arbitrary winner. -/
theorem claim1_most_common_symptoms (wos : List Incident) (f : Filters) :
    (filter_work_orders wos f = [] → most_common_symptoms wos f = []) ∧
    (filter_work_orders wos f ≠ [] →
      (∃ i ∈ filter_work_orders wos f,
        countSymptom (filter_work_orders wos f) i.symptom_code =
          maxCount (filter_work_orders wos f)) ∧
      (∀ i ∈ filter_work_orders wos f,
        countSymptom (filter_work_orders wos f) i.symptom_code ≤
          maxCount (filter_work_orders wos f)) ∧
      (∀ c : String, ∀ k : Nat, (c, k) ∈ most_common_symptoms wos f ↔
        (k = maxCount (filter_work_orders wos f) ∧
         (∃ i ∈ filter_work_orders wos f, i.symptom_code = c) ∧
         countSymptom (filter_work_orders wos f) c = k)) ∧
      ((most_common_symptoms wos f).map Prod.fst).Sorted (· < ·)) ∧
    (∀ A B : String, ∀ n : Nat, A < B → 0 < n →
      countSymptom (filter_work_orders wos f) A = n →
      countSymptom (filter_work_orders wos f) B = n →
      (∀ i ∈ filter_work_orders wos f,
        i.symptom_code ≠ A → i.symptom_code ≠ B →
        countSymptom (filter_work_orders wos f) i.symptom_code < n) →
      most_common_symptoms wos f = [(A, n), (B, n)]) := by
  refine ⟨?_, ?_, ?_⟩
  · intro h
    unfold most_common_symptoms
    simp [h]
  · intro h
    refine ⟨?_, ?_, ?_, ?_⟩
    · obtain ⟨c, hc, hceq⟩ := maxCount_attained h
      obtain ⟨i, hi, hic⟩ := mem_symptomCodesDedup.mp hc
      exact ⟨i, hi, by rw [hic]; exact hceq⟩
    · intro i hi
      exact countSymptom_le_maxCount (mem_symptomCodesDedup.mpr ⟨i, hi, rfl⟩)
    · intro c k
      rw [most_common_symptoms_eq h]
      constructor
      · intro hp
        rcases List.mem_map.mp hp with ⟨c', hc', hceq⟩
        have hcc : c' = c ∧ maxCount (filter_work_orders wos f) = k := by
          constructor
          · exact congrArg Prod.fst hceq
          · exact congrArg Prod.snd hceq
        obtain ⟨rfl, rfl⟩ := hcc
        have hc'' := (List.perm_insertionSort strLe _).mem_iff.mp hc'
        rcases List.mem_filter.mp hc'' with ⟨hcodes, hcount⟩
        exact ⟨rfl, mem_symptomCodesDedup.mp hcodes, by simpa using hcount⟩
      · rintro ⟨rfl, hex, hcnt⟩
        have hc : c ∈ (symptomCodesDedup (filter_work_orders wos f)).filter
            (fun c => countSymptom (filter_work_orders wos f) c ==
              maxCount (filter_work_orders wos f)) :=
          List.mem_filter.mpr ⟨mem_symptomCodesDedup.mpr hex, by simpa using hcnt⟩
        exact List.mem_map.mpr
          ⟨c, (List.perm_insertionSort strLe _).mem_iff.mpr hc, rfl⟩
    · rw [most_common_symptoms_eq h, List.map_map]
      have hfun : (Prod.fst ∘ fun c : String =>
          (c, maxCount (filter_work_orders wos f))) = fun c : String => c := rfl
      rw [hfun, List.map_id']
      have hnodup : ((symptomCodesDedup (filter_work_orders wos f)).filter
          (fun c => countSymptom (filter_work_orders wos f) c ==
            maxCount (filter_work_orders wos f))).Nodup :=
        (List.nodup_dedup _).filter _
      have hsortNodup := (List.perm_insertionSort strLe _).nodup_iff.mpr hnodup
      have hsorted := List.sorted_insertionSort strLe
        ((symptomCodesDedup (filter_work_orders wos f)).filter
          (fun c => countSymptom (filter_work_orders wos f) c ==
            maxCount (filter_work_orders wos f)))
      have hsorted' : (List.insertionSort strLe
          ((symptomCodesDedup (filter_work_orders wos f)).filter
            (fun c => countSymptom (filter_work_orders wos f) c ==
              maxCount (filter_work_orders wos f)))).Sorted (· ≤ ·) :=
        hsorted.imp (fun hab => (strLe_iff_le _ _).mp hab)
      exact hsorted'.lt_of_le hsortNodup
  · intro A B n hAB hn hA hB hother
    have hd : filter_work_orders wos f ≠ [] := by
      intro h0
      rw [h0] at hA
      have : countSymptom ([] : List Incident) A = 0 := rfl
      omega
    have hA' : ∃ i ∈ filter_work_orders wos f, i.symptom_code = A :=
      exists_of_countSymptom_pos (by omega)
    have hB' : ∃ i ∈ filter_work_orders wos f, i.symptom_code = B :=
      exists_of_countSymptom_pos (by omega)
    have hAmem := mem_symptomCodesDedup.mpr hA'
    have hBmem := mem_symptomCodesDedup.mpr hB'
    have hmn : maxCount (filter_work_orders wos f) = n := by
      have h1 : n ≤ maxCount (filter_work_orders wos f) :=
        hA ▸ countSymptom_le_maxCount hAmem
      obtain ⟨c, hc, hceq⟩ := maxCount_attained hd
      obtain ⟨i, hi, hic⟩ := mem_symptomCodesDedup.mp hc
      by_cases hcA : c = A
      · rw [hcA, hA] at hceq
        omega
      · by_cases hcB : c = B
        · rw [hcB, hB] at hceq
          omega
        · have hlt := hother i hi (by rw [hic]; exact hcA) (by rw [hic]; exact hcB)
          rw [hic, hceq] at hlt
          omega
    have htied : ∀ c : String,
        c ∈ (symptomCodesDedup (filter_work_orders wos f)).filter
          (fun c => countSymptom (filter_work_orders wos f) c ==
            maxCount (filter_work_orders wos f)) ↔ c = A ∨ c = B := by
      intro c
      rw [List.mem_filter]
      simp only [beq_iff_eq]
      constructor
      · rintro ⟨hcc, hcm⟩
        by_contra hcon
        push_neg at hcon
        obtain ⟨i, hi, hic⟩ := mem_symptomCodesDedup.mp hcc
        have hlt := hother i hi (by rw [hic]; exact hcon.1) (by rw [hic]; exact hcon.2)
        rw [hic, hcm, hmn] at hlt
        omega
      · rintro (rfl | rfl)
        · exact ⟨hAmem, by rw [hA, hmn]⟩
        · exact ⟨hBmem, by rw [hB, hmn]⟩
    have hnodupT : ((symptomCodesDedup (filter_work_orders wos f)).filter
        (fun c => countSymptom (filter_work_orders wos f) c ==
          maxCount (filter_work_orders wos f))).Nodup :=
      (List.nodup_dedup _).filter _
    have hsortNodup := (List.perm_insertionSort strLe _).nodup_iff.mpr hnodupT
    have hperm : List.Perm (List.insertionSort strLe
        ((symptomCodesDedup (filter_work_orders wos f)).filter
          (fun c => countSymptom (filter_work_orders wos f) c ==
            maxCount (filter_work_orders wos f)))) [A, B] := by
      refine (List.perm_ext_iff_of_nodup hsortNodup ?_).mpr ?_
      · simp [hAB.ne]
      · intro a
        rw [(List.perm_insertionSort strLe _).mem_iff, htied a]
        simp
    have hsorted1 := List.sorted_insertionSort strLe
      ((symptomCodesDedup (filter_work_orders wos f)).filter
        (fun c => countSymptom (filter_work_orders wos f) c ==
          maxCount (filter_work_orders wos f)))
    have hsorted2 : ([A, B]).Sorted strLe := by
      rw [List.sorted_cons]
      refine ⟨?_, ?_⟩
      · intro b hb
        rcases List.mem_singleton.mp hb with rfl
        exact (strLe_iff_le _ _).mpr (le_of_lt hAB)
      · simp [List.sorted_singleton]
    have hTeq := List.eq_of_perm_of_sorted hperm hsorted1 hsorted2
    rw [most_common_symptoms_eq hd, hTeq, hmn]
    rfl

theorem claim1_witness :
    ("A" < "B" ∧ (0:Nat) < 2 ∧
      countSymptom (filter_work_orders rowsC1 {}) "A" = 2 ∧
      countSymptom (filter_work_orders rowsC1 {}) "B" = 2) ∧
    most_common_symptoms rowsC1 {} = [("A", 2), ("B", 2)] :=
  ⟨⟨by rw [String.lt_iff_toList_lt]; decide, by decide, by decide, by decide⟩,
    (claim1_most_common_symptoms rowsC1 {}).2.2 "A" "B" 2
      (by rw [String.lt_iff_toList_lt]; decide) (by decide)
      (by decide) (by decide) (by decide)⟩

/-! ### Technician-ranking claims -/

theorem mem_cleanedPairs {df : List Incident} {p : Int × String} :
    p ∈ cleanedPairs df ↔
      (∃ i ∈ df, ∃ t ∈ i.technicians, (i.work_order_id, strTrim t) = p) ∧
      p.2 ≠ "" := by
  unfold cleanedPairs explodeTechs
  rw [List.mem_filter]
  simp only [List.mem_map, List.mem_flatMap, bne_iff_ne, ne_eq]
  constructor
  · rintro ⟨⟨q, ⟨i, hi, hq⟩, rfl⟩, hne⟩
    rcases hq with ⟨s, hs, rfl⟩
    exact ⟨⟨i, hi, s, hs, rfl⟩, hne⟩
  · rintro ⟨⟨i, hi, s, hs, rfl⟩, hne⟩
    exact ⟨⟨(i.work_order_id, s), ⟨i, hi, ⟨s, hs, rfl⟩⟩, rfl⟩, hne⟩

theorem mem_techNames {df : List Incident} {t : String} :
    t ∈ techNames df ↔
      t ≠ "" ∧ ∃ i ∈ df, ∃ s ∈ i.technicians, strTrim s = t := by
  unfold techNames
  rw [List.mem_dedup, List.mem_map]
  constructor
  · rintro ⟨p, hp, rfl⟩
    rcases mem_cleanedPairs.mp hp with ⟨⟨i, hi, s, hs, hps⟩, hne⟩
    exact ⟨hne, i, hi, s, hs, congrArg Prod.snd hps⟩
  · rintro ⟨hne, i, hi, s, hs, hst⟩
    refine ⟨(i.work_order_id, t), mem_cleanedPairs.mpr ⟨⟨i, hi, s, hs, ?_⟩, hne⟩, rfl⟩
    rw [hst]

theorem distinctWOCount_eq_spec {df : List Incident} {tech : String} (h : tech ≠ "") :
    distinctWOCount df tech = specDistinctIncidents df tech := by
  unfold distinctWOCount specDistinctIncidents
  have hmem : ∀ id : Int,
      id ∈ (((cleanedPairs df).filter (fun p => p.2 == tech)).map (fun p => p.1)) ↔
      id ∈ ((df.filter (fun i => i.technicians.any (fun s => strTrim s == tech))).map
        (fun i => i.work_order_id)) := by
    intro id
    rw [List.mem_map, List.mem_map]
    constructor
    · rintro ⟨p, hp, rfl⟩
      rcases List.mem_filter.mp hp with ⟨hp1, hp2⟩
      rcases mem_cleanedPairs.mp hp1 with ⟨⟨i, hi, s, hs, hps⟩, hne⟩
      have hfst : i.work_order_id = p.1 := congrArg Prod.fst hps
      have hsnd : strTrim s = p.2 := congrArg Prod.snd hps
      have h2 : p.2 = tech := by simpa using hp2
      refine ⟨i, List.mem_filter.mpr ⟨hi, ?_⟩, hfst⟩
      exact List.any_eq_true.mpr ⟨s, hs, by simp [hsnd, h2]⟩
    · rintro ⟨i, hi, rfl⟩
      rcases List.mem_filter.mp hi with ⟨hdf, hany⟩
      rcases List.any_eq_true.mp hany with ⟨s, hs, hst⟩
      have hst' : strTrim s = tech := by simpa using hst
      refine ⟨(i.work_order_id, tech), List.mem_filter.mpr ⟨?_, by simp⟩, rfl⟩
      exact mem_cleanedPairs.mpr ⟨⟨i, hdf, s, hs, by rw [hst']⟩, h⟩
  have hfin :
      ((((cleanedPairs df).filter (fun p => p.2 == tech)).map (fun p => p.1)).toFinset :
        Finset Int) =
      ((df.filter (fun i => i.technicians.any (fun s => strTrim s == tech))).map
        (fun i => i.work_order_id)).toFinset := by
    ext id
    simp only [List.mem_toFinset]
    exact hmem id
  rw [← List.card_toFinset, ← List.card_toFinset, hfin]

theorem mem_techRanking {df : List Incident} {p : String × Nat} :
    p ∈ techRanking df ↔
      p.1 ∈ techNames df ∧ p.2 = distinctWOCount df p.1 := by
  rcases p with ⟨a, b⟩
  unfold techRanking
  rw [(List.perm_insertionSort rankRel _).mem_iff, List.mem_map]
  constructor
  · rintro ⟨t, ht, hteq⟩
    have h1 : t = a := congrArg Prod.fst hteq
    have h2 : distinctWOCount df t = b := congrArg Prod.snd hteq
    subst h1
    exact ⟨(List.perm_insertionSort strLe _).mem_iff.mp ht, h2.symm⟩
  · rintro ⟨h1, h2⟩
    exact ⟨a, (List.perm_insertionSort strLe _).mem_iff.mpr h1,
      by rw [Prod.mk.injEq]; exact ⟨rfl, h2.symm⟩⟩

theorem top_technicians_eq (t : WOTable) (n : Nat) (f : Filters)
    (ht : t.hasTechnicians = true) :
    top_technicians t n f =
      .ok ((techRanking (filter_work_orders t.rows f)).take n) := by
  unfold top_technicians
  cases hd : (filter_work_orders t.rows f).isEmpty with
  | false => simp [hd, ht]
  | true =>
    have hnil : filter_work_orders t.rows f = [] := by
      simpa [List.isEmpty_iff] using hd
    have hr : techRanking ([] : List Incident) = [] := rfl
    simp [hd, hnil, hr]

/-- C4: with the technicians column present, `top_technicians` returns
the first `n` entries of the full ranking; that ranking is sorted by
(count descending, name ascending), contains no blank names, pairs each
technician with the number of DISTINCT work orders whose (stripped)
technician list contains them, and contains every non-blank stripped
technician of the filtered set. -/
theorem claim4_top_technicians (t : WOTable) (n : Nat) (f : Filters)
    (ht : t.hasTechnicians = true) :
    top_technicians t n f =
      .ok ((techRanking (filter_work_orders t.rows f)).take n) ∧
    (techRanking (filter_work_orders t.rows f)).Sorted rankRel ∧
    (∀ p ∈ techRanking (filter_work_orders t.rows f),
      p.1 ≠ "" ∧
      p.2 = specDistinctIncidents (filter_work_orders t.rows f) p.1) ∧
    (∀ tech : String, tech ≠ "" →
      (∃ i ∈ filter_work_orders t.rows f, ∃ s ∈ i.technicians, strTrim s = tech) →
      tech ∈ (techRanking (filter_work_orders t.rows f)).map Prod.fst) := by
  refine ⟨top_technicians_eq t n f ht, ?_, ?_, ?_⟩
  · unfold techRanking
    exact List.sorted_insertionSort rankRel _
  · intro p hp
    rcases mem_techRanking.mp hp with ⟨h1, h2⟩
    have hne : p.1 ≠ "" := (mem_techNames.mp h1).1
    exact ⟨hne, h2.trans (distinctWOCount_eq_spec hne)⟩
  · intro tech hne hex
    have h1 : tech ∈ techNames (filter_work_orders t.rows f) :=
      mem_techNames.mpr ⟨hne, hex⟩
    exact List.mem_map.mpr
      ⟨(tech, distinctWOCount (filter_work_orders t.rows f) tech),
        mem_techRanking.mpr ⟨h1, rfl⟩, rfl⟩

theorem claim4_witness :
    tblC4.hasTechnicians = true ∧
    (top_technicians tblC4 1 {} =
       .ok ((techRanking (filter_work_orders tblC4.rows {})).take 1) ∧
     (techRanking (filter_work_orders tblC4.rows {})).Sorted rankRel ∧
     (∀ p ∈ techRanking (filter_work_orders tblC4.rows {}),
       p.1 ≠ "" ∧
       p.2 = specDistinctIncidents (filter_work_orders tblC4.rows {}) p.1) ∧
     (∀ tech : String, tech ≠ "" →
       (∃ i ∈ filter_work_orders tblC4.rows {}, ∃ s ∈ i.technicians, strTrim s = tech) →
       tech ∈ (techRanking (filter_work_orders tblC4.rows {})).map Prod.fst)) :=
  ⟨rfl, claim4_top_technicians tblC4 1 {} rfl⟩

/-! ### Ingestion claims -/

theorem tsListMin_spec (x : Timestamp) (l : List Timestamp) :
    tsListMin x l ∈ x :: l ∧ ∀ y ∈ x :: l, (tsListMin x l).key ≤ y.key := by
  induction l generalizing x with
  | nil =>
    refine ⟨List.mem_singleton.mpr rfl, ?_⟩
    intro y hy
    rcases List.mem_singleton.mp hy with rfl
    exact le_refl _
  | cons z zs ih =>
    by_cases hxz : x.key ≤ z.key
    · have heq : tsListMin x (z :: zs) = tsListMin x zs := by
        simp [tsListMin, hxz]
      obtain ⟨hmem, hle⟩ := ih x
      rw [heq]
      constructor
      · rcases List.mem_cons.mp hmem with h | h
        · rw [h]
          exact List.mem_cons_self _ _
        · exact List.mem_cons_of_mem _ (List.mem_cons_of_mem _ h)
      · intro y hy
        rcases List.mem_cons.mp hy with rfl | hy'
        · exact hle y (List.mem_cons_self _ _)
        rcases List.mem_cons.mp hy' with rfl | hy''
        · exact (hle x (List.mem_cons_self _ _)).trans hxz
        · exact hle y (List.mem_cons_of_mem _ hy'')
    · have heq : tsListMin x (z :: zs) = tsListMin z zs := by
        simp [tsListMin, hxz]
      obtain ⟨hmem, hle⟩ := ih z
      rw [heq]
      constructor
      · rcases List.mem_cons.mp hmem with h | h
        · rw [h]
          exact List.mem_cons_of_mem _ (List.mem_cons_self _ _)
        · exact List.mem_cons_of_mem _ (List.mem_cons_of_mem _ h)
      · intro y hy
        have hzx : z.key ≤ x.key := le_of_not_le hxz
        rcases List.mem_cons.mp hy with rfl | hy'
        · exact (hle z (List.mem_cons_self _ _)).trans hzx
        rcases List.mem_cons.mp hy' with rfl | hy''
        · exact hle y (List.mem_cons_self _ _)
        · exact hle y (List.mem_cons_of_mem _ hy'')

theorem tsListMax_spec (x : Timestamp) (l : List Timestamp) :
    tsListMax x l ∈ x :: l ∧ ∀ y ∈ x :: l, y.key ≤ (tsListMax x l).key := by
  induction l generalizing x with
  | nil =>
    refine ⟨List.mem_singleton.mpr rfl, ?_⟩
    intro y hy
    rcases List.mem_singleton.mp hy with rfl
    exact le_refl _
  | cons z zs ih =>
    by_cases hzx : z.key ≤ x.key
    · have heq : tsListMax x (z :: zs) = tsListMax x zs := by
        simp [tsListMax, hzx]
      obtain ⟨hmem, hle⟩ := ih x
      rw [heq]
      constructor
      · rcases List.mem_cons.mp hmem with h | h
        · rw [h]
          exact List.mem_cons_self _ _
        · exact List.mem_cons_of_mem _ (List.mem_cons_of_mem _ h)
      · intro y hy
        rcases List.mem_cons.mp hy with rfl | hy'
        · exact hle y (List.mem_cons_self _ _)
        rcases List.mem_cons.mp hy' with rfl | hy''
        · exact hzx.trans (hle x (List.mem_cons_self _ _))
        · exact hle y (List.mem_cons_of_mem _ hy'')
    · have heq : tsListMax x (z :: zs) = tsListMax z zs := by
        simp [tsListMax, hzx]
      obtain ⟨hmem, hle⟩ := ih z
      rw [heq]
      constructor
      · rcases List.mem_cons.mp hmem with h | h
        · rw [h]
          exact List.mem_cons_of_mem _ (List.mem_cons_self _ _)
        · exact List.mem_cons_of_mem _ (List.mem_cons_of_mem _ h)
      · intro y hy
        have hxz : x.key ≤ z.key := le_of_not_le hzx
        rcases List.mem_cons.mp hy with rfl | hy'
        · exact hxz.trans (hle z (List.mem_cons_self _ _))
        rcases List.mem_cons.mp hy' with rfl | hy''
        · exact hle y (List.mem_cons_self _ _)
        · exact hle y (List.mem_cons_of_mem _ hy'')

theorem mem_sortedEvents {events : List Event} {e : Event} :
    e ∈ sortedEvents events ↔ e ∈ events :=
  (List.perm_insertionSort eventLe events).mem_iff

theorem mem_groupOf {events : List Event} {id : Int} {e : Event} :
    e ∈ groupOf events id ↔ e ∈ events ∧ e.work_order_id = id := by
  unfold groupOf
  rw [List.mem_filter, mem_sortedEvents]
  simp

theorem mem_woIds {events : List Event} {id : Int} :
    id ∈ woIds events ↔ ∃ e ∈ events, e.work_order_id = id := by
  unfold woIds
  rw [List.mem_dedup, List.mem_map]
  constructor
  · rintro ⟨e, he, rfl⟩
    exact ⟨e, mem_sortedEvents.mp he, rfl⟩
  · rintro ⟨e, he, rfl⟩
    exact ⟨e, mem_sortedEvents.mpr he, rfl⟩

theorem aggGroup_wo (id : Int) (g : List Event) :
    (aggGroup id g).work_order_id = id := by
  cases g <;> rfl

theorem build_map_wo (events : List Event) :
    (build_work_orders events).map (fun i => i.work_order_id) = woIds events := by
  unfold build_work_orders
  rw [List.map_map]
  have hfun : ((fun i : Incident => i.work_order_id) ∘
      fun id => aggGroup id (groupOf events id)) = fun id : Int => id := by
    funext id
    exact aggGroup_wo id _
  rw [hfun, List.map_id']

/-- C10: `build_work_orders` produces one row per distinct
`work_order_id` (the id column is duplicate-free, its members are
exactly the ids occurring in the events, and the row count equals the
number of distinct event ids), with `start_ts` / `end_ts` the
min / max over the incident's events, and `technicians` the sorted set
of its events' distinct non-blank technician names. -/
theorem claim10_build_work_orders (events : List Event) :
    ((build_work_orders events).map (fun i => i.work_order_id)).Nodup ∧
    (build_work_orders events).length =
      ((events.map (fun e => e.work_order_id)).dedup).length ∧
    (∀ id : Int,
      id ∈ (build_work_orders events).map (fun i => i.work_order_id) ↔
      id ∈ events.map (fun e => e.work_order_id)) ∧
    (∀ inc ∈ build_work_orders events,
      (∃ e ∈ events, e.work_order_id = inc.work_order_id ∧
        e.start_ts = inc.start_ts) ∧
      (∀ e ∈ events, e.work_order_id = inc.work_order_id →
        inc.start_ts.key ≤ e.start_ts.key) ∧
      (∃ e ∈ events, e.work_order_id = inc.work_order_id ∧
        e.end_ts = inc.end_ts) ∧
      (∀ e ∈ events, e.work_order_id = inc.work_order_id →
        e.end_ts.key ≤ inc.end_ts.key) ∧
      inc.technicians.Nodup ∧
      inc.technicians.Sorted (· ≤ ·) ∧
      (∀ s : String, s ∈ inc.technicians ↔
        (strTrim s ≠ "" ∧ ∃ e ∈ events, e.work_order_id = inc.work_order_id ∧
          e.technician = s))) := by
  have hperm : List.Perm ((sortedEvents events).map (fun e => e.work_order_id))
      (events.map (fun e => e.work_order_id)) :=
    (List.perm_insertionSort eventLe events).map _
  refine ⟨?_, ?_, ?_, ?_⟩
  · rw [build_map_wo]
    exact List.nodup_dedup _
  · have hlen : (build_work_orders events).length = (woIds events).length := by
      unfold build_work_orders
      rw [List.length_map]
    rw [hlen]
    unfold woIds
    exact hperm.dedup.length_eq
  · intro id
    rw [build_map_wo, mem_woIds, List.mem_map]
  · intro inc hinc
    unfold build_work_orders at hinc
    rcases List.mem_map.mp hinc with ⟨wid, hwid, rfl⟩
    obtain ⟨e₀, he₀, hwo₀⟩ := mem_woIds.mp hwid
    have he₀g : e₀ ∈ groupOf events wid := mem_groupOf.mpr ⟨he₀, hwo₀⟩
    cases hG : groupOf events wid with
    | nil =>
      rw [hG] at he₀g
      simp at he₀g
    | cons e es =>
      have hgmem : ∀ e' : Event, e' ∈ e :: es ↔
          e' ∈ events ∧ e'.work_order_id = wid := by
        intro e'
        rw [← hG]
        exact mem_groupOf
      have hwo : (aggGroup wid (e :: es)).work_order_id = wid := rfl
      have hstart : (aggGroup wid (e :: es)).start_ts =
          tsListMin e.start_ts (es.map (fun x => x.start_ts)) := rfl
      have hend : (aggGroup wid (e :: es)).end_ts =
          tsListMax e.end_ts (es.map (fun x => x.end_ts)) := rfl
      have htech : (aggGroup wid (e :: es)).technicians =
          List.insertionSort strLe
            ((((e :: es).map (fun x => x.technician)).filter
              (fun s => strTrim s != "")).dedup) := rfl
      have hmapstart : e.start_ts :: es.map (fun x => x.start_ts) =
          (e :: es).map (fun x => x.start_ts) := rfl
      have hmapend : e.end_ts :: es.map (fun x => x.end_ts) =
          (e :: es).map (fun x => x.end_ts) := rfl
      refine ⟨?_, ?_, ?_, ?_, ?_, ?_, ?_⟩
      · obtain ⟨hmem, -⟩ := tsListMin_spec e.start_ts (es.map (fun x => x.start_ts))
        rw [hmapstart] at hmem
        rcases List.mem_map.mp hmem with ⟨e', he', heq⟩
        have h1 := (hgmem e').mp he'
        refine ⟨e', h1.1, ?_, ?_⟩
        · rw [hwo]
          exact h1.2
        · rw [hstart]
          exact heq
      · intro e' he' hwoeq
        obtain ⟨-, hle⟩ := tsListMin_spec e.start_ts (es.map (fun x => x.start_ts))
        have hg : e' ∈ e :: es := (hgmem e').mpr ⟨he', by rwa [hwo] at hwoeq⟩
        have hsmem : e'.start_ts ∈ e.start_ts :: es.map (fun x => x.start_ts) := by
          rw [hmapstart]
          exact List.mem_map.mpr ⟨e', hg, rfl⟩
        rw [hstart]
        exact hle _ hsmem
      · obtain ⟨hmem, -⟩ := tsListMax_spec e.end_ts (es.map (fun x => x.end_ts))
        rw [hmapend] at hmem
        rcases List.mem_map.mp hmem with ⟨e', he', heq⟩
        have h1 := (hgmem e').mp he'
        refine ⟨e', h1.1, ?_, ?_⟩
        · rw [hwo]
          exact h1.2
        · rw [hend]
          exact heq
      · intro e' he' hwoeq
        obtain ⟨-, hle⟩ := tsListMax_spec e.end_ts (es.map (fun x => x.end_ts))
        have hg : e' ∈ e :: es := (hgmem e').mpr ⟨he', by rwa [hwo] at hwoeq⟩
        have hsmem : e'.end_ts ∈ e.end_ts :: es.map (fun x => x.end_ts) := by
          rw [hmapend]
          exact List.mem_map.mpr ⟨e', hg, rfl⟩
        rw [hend]
        exact hle _ hsmem
      · rw [htech]
        exact ((List.perm_insertionSort strLe _).nodup_iff).mpr (List.nodup_dedup _)
      · rw [htech]
        exact (List.sorted_insertionSort strLe _).imp
          (fun h => (strLe_iff_le _ _).mp h)
      · intro s
        rw [htech]
        constructor
        · intro hsmem
          have h1 := (List.perm_insertionSort strLe _).mem_iff.mp hsmem
          rw [List.mem_dedup, List.mem_filter] at h1
          obtain ⟨hmapmem, hne⟩ := h1
          rcases List.mem_map.mp hmapmem with ⟨e', he', rfl⟩
          have h2 := (hgmem e').mp he'
          refine ⟨by simpa using hne, e', h2.1, ?_, rfl⟩
          rw [hwo]
          exact h2.2
        · rintro ⟨hne, e', he', hwoeq, rfl⟩
          apply (List.perm_insertionSort strLe _).mem_iff.mpr
          rw [List.mem_dedup, List.mem_filter]
          refine ⟨List.mem_map.mpr ⟨e', (hgmem e').mpr ⟨he', ?_⟩, rfl⟩, by simpa using hne⟩
          rwa [hwo] at hwoeq

theorem claim10_witness :
    ((2 : Int) ∈ evsW.map (fun e => e.work_order_id)) ∧
    ((2 : Int) ∈ (build_work_orders evsW).map (fun i => i.work_order_id)) :=
  ⟨by decide, ((claim10_build_work_orders evsW).2.2.1 2).mpr (by decide)⟩

end MaintQA
